import Mathlib

/-!
Verification of the channel-creation pipeline of index.js.

The embedding works over JS strings as lists of characters. Every
definition below is translated from src/index.js: the name sanitizer
(line 83), the OpenRouter retry loop (lines 52 to 80), the JSON array
extraction (lines 117 to 119, with JSON.parse modelled as a standard
JSON parser), spec normalization (lines 121 to 126), the dry run
preview (lines 128 to 131), and the two pass channel executor
(lines 133 to 160). External effects (HTTP, Discord API) are modelled
by oracles indexed by call order, and the calls issued are collected
in a trace.
-/

namespace AIChannelCreator

/-- Characters legal in a sanitized name: the class of chars kept by
the regex replace on line 84, namely lowercase letters, digits and
the hyphen. -/
def isLegalChar (c : Char) : Bool :=
  (decide ('a' ≤ c) && decide (c ≤ 'z')) ||
  (decide ('0' ≤ c) && decide (c ≤ '9')) || decide (c = '-')

/-- The regex replace of line 84: every character outside the legal
class becomes a hyphen. -/
def replaceIllegal (s : List Char) : List Char :=
  s.map (fun c => if isLegalChar c then c else '-')

/-- The second regex replace of line 84: collapse each run of hyphens
into a single hyphen (a hyphen directly followed by another hyphen is
dropped, keeping the last of each run). -/
def collapseDashes : List Char → List Char
  | [] => []
  | [c] => [c]
  | a :: b :: rest =>
    if a = '-' && b = '-' then collapseDashes (b :: rest)
    else a :: collapseDashes (b :: rest)

/-- sanitizeName from line 83: lowercase, replace illegal characters
by hyphens, collapse hyphen runs, truncate to 100 characters. -/
def sanitizeName (name : List Char) : List Char :=
  (collapseDashes (replaceIllegal (name.map Char.toLower))).take 100

/-- Occurrence test for a pattern at the head of a list. -/
def startsWithSeq : List Char → List Char → Bool
  | [], _ => true
  | _ :: _, [] => false
  | p :: ps, c :: cs => decide (p = c) && startsWithSeq ps cs

/-- Occurrence test for a contiguous pattern anywhere in a list; used
to state that a sanitized name holds no double hyphen and that an
error message does not carry another message. -/
def containsSeq (pat : List Char) : List Char → Bool
  | [] => startsWithSeq pat []
  | c :: cs => startsWithSeq pat (c :: cs) || containsSeq pat cs

/-- Channel type after normalization (line 123). -/
inductive ChanType where
  | text
  | voice
  | category
deriving DecidableEq

/-- A raw channel spec as extracted from the model output. The fields
are JS values that are either absent (none) or strings; this covers
every batch the normalization of lines 121 to 126 completes on. -/
structure ChannelSpec where
  name : Option (List Char)
  type : Option (List Char)
  topic : Option (List Char)
  parent : Option (List Char)
deriving DecidableEq

/-- A normalized channel (the records built on lines 121 to 126). -/
structure NormalizedChannel where
  name : List Char
  type : ChanType
  topic : Option (List Char)
  parent : Option (List Char)
deriving DecidableEq

/-- JS disjunction v || fallback for a string valued field: a falsy
value (absent or the empty string) yields the fallback. -/
def jsOrStr (v : Option (List Char)) (fallback : List Char) : List Char :=
  match v with
  | some s => if s = [] then fallback else s
  | none => fallback

/-- JS disjunction v || null for a string valued field: a falsy value
(absent or the empty string) becomes null. -/
def jsOrNull (v : Option (List Char)) : Option (List Char) :=
  match v with
  | some s => if s = [] then none else some s
  | none => none

/-- Decimal rendering of a number, as JS template interpolation does. -/
def natToChars (n : Nat) : List Char := (Nat.repr n).toList

/-- The fallback name channel-(idx+1) of line 122, idx being the zero
based position in the batch. -/
def fallbackName (idx : Nat) : List Char :=
  ("channel-").toList ++ natToChars (idx + 1)

/-- Normalization of one spec (lines 121 to 126). -/
def normalizeSpec (idx : Nat) (c : ChannelSpec) : NormalizedChannel :=
  { name := sanitizeName (jsOrStr c.name (fallbackName idx))
  , type :=
      if c.type = some (("voice").toList) then ChanType.voice
      else if c.type = some (("category").toList) then ChanType.category
      else ChanType.text
  , topic := jsOrNull c.topic
  , parent := jsOrNull c.parent }

/-- channels.map with its running index (line 121). -/
def normalizeGo (idx : Nat) : List ChannelSpec → List NormalizedChannel
  | [] => []
  | c :: rest => normalizeSpec idx c :: normalizeGo (idx + 1) rest

/-- The whole normalization pass over a batch. -/
def normalizeAll (specs : List ChannelSpec) : List NormalizedChannel :=
  normalizeGo 0 specs

/-- JSON values, as produced by JSON.parse. Number literals keep
their lexeme, since the pipeline never computes with them. -/
inductive Json where
  | null
  | bool (b : Bool)
  | num (lexeme : List Char)
  | str (value : List Char)
  | arr (elems : List Json)
  | obj (fields : List (List Char × Json))

/-- JSON whitespace. -/
def isJsonWs (c : Char) : Bool :=
  decide (c = ' ') || decide (c = '\t') || decide (c = '\n') || decide (c = '\r')

/-- Drop leading JSON whitespace. -/
def skipWs (s : List Char) : List Char := s.dropWhile isJsonWs

/-- Value of a hexadecimal digit. -/
def hexVal (c : Char) : Option Nat :=
  if decide ('0' ≤ c) && decide (c ≤ '9') then some (c.toNat - ('0').toNat)
  else if decide ('a' ≤ c) && decide (c ≤ 'f') then some (c.toNat - ('a').toNat + 10)
  else if decide ('A' ≤ c) && decide (c ≤ 'F') then some (c.toNat - ('A').toNat + 10)
  else none

/-- Single character JSON string escapes. -/
def escMap (c : Char) : Option Char :=
  if c = '"' then some '"'
  else if c = '\\' then some '\\'
  else if c = '/' then some '/'
  else if c = 'b' then some (Char.ofNat 8)
  else if c = 'f' then some (Char.ofNat 12)
  else if c = 'n' then some '\n'
  else if c = 'r' then some '\r'
  else if c = 't' then some '\t'
  else none

/-- Parse the body of a JSON string after the opening quote, returning
the decoded value and the remainder after the closing quote. -/
def parseStringBody : Nat → List Char → Option (List Char × List Char)
  | 0, _ => none
  | _ + 1, [] => none
  | fuel + 1, c :: rest =>
    if c = '"' then some ([], rest)
    else if c = '\\' then
      match rest with
      | [] => none
      | e :: rest2 =>
        if e = 'u' then
          match rest2 with
          | h1 :: h2 :: h3 :: h4 :: rest4 =>
            match hexVal h1, hexVal h2, hexVal h3, hexVal h4 with
            | some a, some b, some c2, some d =>
              match parseStringBody fuel rest4 with
              | some (tail, r) =>
                some (Char.ofNat (((a * 16 + b) * 16 + c2) * 16 + d) :: tail, r)
              | none => none
            | _, _, _, _ => none
          | _ => none
        else
          match escMap e with
          | some d =>
            match parseStringBody fuel rest2 with
            | some (tail, r) => some (d :: tail, r)
            | none => none
          | none => none
    else if c.toNat < 32 then none
    else
      match parseStringBody fuel rest with
      | some (tail, r) => some (c :: tail, r)
      | none => none

/-- Longest digit run at the head of a list, and the remainder. -/
def digitSpan (s : List Char) : List Char × List Char :=
  (s.takeWhile Char.isDigit, s.dropWhile Char.isDigit)

/-- Integer part of a JSON number: a single 0, or a nonzero digit
followed by digits. -/
def parseIntPart : List Char → Option (List Char × List Char)
  | [] => none
  | c :: r =>
    if c = '0' then some ([c], r)
    else if c.isDigit then
      some (c :: (digitSpan r).1, (digitSpan r).2)
    else none

/-- Optional fraction part of a JSON number. -/
def parseFracPart : List Char → Option (List Char × List Char)
  | [] => some ([], [])
  | c :: r =>
    if c = '.' then
      if (digitSpan r).1 = [] then none
      else some ('.' :: (digitSpan r).1, (digitSpan r).2)
    else some ([], c :: r)

/-- Optional exponent part of a JSON number. -/
def parseExpPart : List Char → Option (List Char × List Char)
  | [] => some ([], [])
  | c :: r =>
    if c = 'e' || c = 'E' then
      match r with
      | [] => none
      | sg :: r2 =>
        if sg = '+' || sg = '-' then
          if (digitSpan r2).1 = [] then none
          else some (c :: sg :: (digitSpan r2).1, (digitSpan r2).2)
        else if (digitSpan (sg :: r2)).1 = [] then none
        else some (c :: (digitSpan (sg :: r2)).1, (digitSpan (sg :: r2)).2)
    else some ([], c :: r)

/-- The optional leading minus of a JSON number. -/
def parseSignPart : List Char → List Char × List Char
  | [] => ([], [])
  | c :: r => if c = '-' then (('-' :: []), r) else ([], c :: r)

/-- A JSON number lexeme and the remainder. -/
def parseNumber (s : List Char) : Option (List Char × List Char) :=
  match parseIntPart (parseSignPart s).2 with
  | none => none
  | some (ip, s2) =>
    match parseFracPart s2 with
    | none => none
    | some (fp, s3) =>
      match parseExpPart s3 with
      | none => none
      | some (ep, s4) => some ((parseSignPart s).1 ++ ip ++ fp ++ ep, s4)

mutual

/-- Parse one JSON value after skipping whitespace, returning the
value and the remainder. -/
def parseValue : Nat → List Char → Option (Json × List Char)
  | 0, _ => none
  | fuel + 1, s =>
    match skipWs s with
    | [] => none
    | c :: rest =>
      if c = '{' then
        match skipWs rest with
        | [] => none
        | c2 :: r2 =>
          if c2 = '}' then some (Json.obj [], r2)
          else
            match parseObjItems fuel rest with
            | some (fs, r) => some (Json.obj fs, r)
            | none => none
      else if c = '[' then
        match skipWs rest with
        | [] => none
        | c2 :: r2 =>
          if c2 = ']' then some (Json.arr [], r2)
          else
            match parseArrItems fuel rest with
            | some (es, r) => some (Json.arr es, r)
            | none => none
      else if c = '"' then
        match parseStringBody fuel rest with
        | some (v, r) => some (Json.str v, r)
        | none => none
      else if ("true").toList.isPrefixOf (c :: rest) then
        some (Json.bool true, (c :: rest).drop 4)
      else if ("false").toList.isPrefixOf (c :: rest) then
        some (Json.bool false, (c :: rest).drop 5)
      else if ("null").toList.isPrefixOf (c :: rest) then
        some (Json.null, (c :: rest).drop 4)
      else
        match parseNumber (c :: rest) with
        | some (lex, r) => some (Json.num lex, r)
        | none => none

/-- Parse the comma separated items of a nonempty JSON array, up to
and including the closing bracket. -/
def parseArrItems : Nat → List Char → Option (List Json × List Char)
  | 0, _ => none
  | fuel + 1, s =>
    match parseValue fuel s with
    | none => none
    | some (v, r1) =>
      match skipWs r1 with
      | [] => none
      | c2 :: r2 =>
        if c2 = ',' then
          match parseArrItems fuel r2 with
          | some (vs, r3) => some (v :: vs, r3)
          | none => none
        else if c2 = ']' then some ([v], r2)
        else none

/-- Parse the comma separated members of a nonempty JSON object, up
to and including the closing brace. -/
def parseObjItems : Nat → List Char → Option (List (List Char × Json) × List Char)
  | 0, _ => none
  | fuel + 1, s =>
    match skipWs s with
    | [] => none
    | c :: r =>
      if c = '"' then
        match parseStringBody fuel r with
        | none => none
        | some (key, r1) =>
          match skipWs r1 with
          | [] => none
          | c2 :: r2 =>
            if c2 = ':' then
              match parseValue fuel r2 with
              | none => none
              | some (v, r3) =>
                match skipWs r3 with
                | [] => none
                | c3 :: r4 =>
                  if c3 = ',' then
                    match parseObjItems fuel r4 with
                    | some (fs, r5) => some ((key, v) :: fs, r5)
                    | none => none
                  else if c3 = '}' then some ([(key, v)], r4)
                  else none
            else none
      else none

end

/-- JSON.parse: parse one value and require only whitespace to
remain. The fuel is ample for any input of the given length. -/
def parseJson (s : List Char) : Except (List Char) Json :=
  match parseValue (2 * s.length + 2) s with
  | some (v, rest) =>
    if skipWs rest = [] then Except.ok v
    else Except.error (("Unexpected token in JSON").toList)
  | none => Except.error (("Unexpected end of JSON input").toList)

/-- Index of the first occurrence of a character. -/
def firstIdxOf (a : Char) : List Char → Option Nat
  | [] => none
  | c :: rest =>
    if c = a then some 0 else (firstIdxOf a rest).map (· + 1)

/-- Index of the last occurrence of a character. -/
def lastIdxOf (a : Char) : List Char → Option Nat
  | [] => none
  | c :: rest =>
    match lastIdxOf a rest with
    | some i => some (i + 1)
    | none => if c = a then some 0 else none

/-- The regex match of line 117: the greedy dotall pattern bracket,
anything, bracket matches from the first opening bracket to the last
closing bracket, when the former precedes the latter. -/
def jsonMatch (s : List Char) : Option (List Char) :=
  match firstIdxOf '[' s, lastIdxOf ']' s with
  | some i, some j =>
    if i < j then some ((s.drop i).take (j - i + 1)) else none
  | _, _ => none

/-- Lines 117 to 119: take the greedy bracket match when present, the
whole output otherwise, and JSON.parse it. -/
def extract (modelOutput : List Char) : Except (List Char) Json :=
  parseJson ((jsonMatch modelOutput).getD modelOutput)

/-- What a successful Discord create call returns, as far as the
handler reads it: the id and the name of the created channel. -/
structure Created where
  id : Nat
  name : List Char
deriving DecidableEq

/-- The discord.js channel type constant passed on line 137 or 147. -/
inductive JsChannelType where
  | guildText
  | guildVoice
  | guildCategory
deriving DecidableEq

/-- The options object built on lines 145 to 150. -/
structure ChannelOptions where
  name : List Char
  type : JsChannelType
  topic : Option (List Char)
  parent : Option Nat
deriving DecidableEq

/-- A directory mutation call issued by the handler. -/
inductive DirCall where
  | createCategory (name : List Char)
  | createChannel (options : ChannelOptions)
deriving DecidableEq

/-- One entry of createdChannels (lines 153 and 155). -/
inductive CreationResult where
  | created (name : List Char) (type : ChanType)
  | errored (name : List Char) (msg : List Char)
deriving DecidableEq

/-- True of an error entry. -/
def isErroredRes : CreationResult → Bool
  | CreationResult.errored _ _ => true
  | _ => false

/-- True of a success entry. -/
def isCreatedRes : CreationResult → Bool
  | CreationResult.created _ _ => true
  | _ => false

/-- The outcome of every directory create call, indexed by the order
in which the handler issues the calls. -/
def DirOracle : Type := Nat → Except (List Char) Created

/-- categoryMap lookup. Entries are prepended as created, so the
first match is the most recent assignment, matching JS property
overwrite semantics. -/
def lookupMap (m : List (List Char × Nat)) (k : List Char) : Option Nat :=
  (m.find? (fun p => decide (p.1 = k))).map (fun p => p.2)

/-- JS truthiness of a nullable string. -/
def jsTruthy (o : Option (List Char)) : Bool :=
  match o with
  | some s => decide (s ≠ [])
  | none => false

/-- The options object of lines 145 to 150: voice type or text type,
topic carried through, parent resolved through categoryMap when the
parent field is truthy and left undefined otherwise. -/
def buildOptions (m : List (List Char × Nat)) (ch : NormalizedChannel) : ChannelOptions :=
  { name := ch.name
  , type := if ch.type = ChanType.voice then JsChannelType.guildVoice else JsChannelType.guildText
  , topic := ch.topic
  , parent :=
      match ch.parent with
      | some p => if p = [] then none else lookupMap m p
      | none => none }

/-- Pass 1 (lines 133 to 140): create every category in order,
recording name to id in categoryMap. The per item index counts calls
issued so far; an error here is not caught and aborts the pass. The
calls issued before the abort are kept in the trace. -/
def pass1 (oracle : DirOracle) :
    List NormalizedChannel → Nat → List (List Char × Nat) →
    List DirCall × Except (List Char) (Nat × List (List Char × Nat))
  | [], k, m => ([], Except.ok (k, m))
  | ch :: rest, k, m =>
    if ch.type = ChanType.category then
      match oracle k with
      | Except.ok cr =>
        let next := pass1 oracle rest (k + 1) ((ch.name, cr.id) :: m)
        (DirCall.createCategory ch.name :: next.1, next.2)
      | Except.error e => ([DirCall.createCategory ch.name], Except.error e)
    else pass1 oracle rest k m

/-- Pass 2 (lines 142 to 157): create every non category channel,
catching each failure individually and recording a per item result. -/
def pass2 (oracle : DirOracle) (m : List (List Char × Nat)) :
    List NormalizedChannel → Nat → List DirCall × List CreationResult
  | [], _ => ([], [])
  | ch :: rest, k =>
    if ch.type = ChanType.category then pass2 oracle m rest k
    else
      let opts := buildOptions m ch
      match oracle k with
      | Except.ok cr =>
        let next := pass2 oracle m rest (k + 1)
        (DirCall.createChannel opts :: next.1, CreationResult.created cr.name ch.type :: next.2)
      | Except.error e =>
        let next := pass2 oracle m rest (k + 1)
        (DirCall.createChannel opts :: next.1, CreationResult.errored ch.name e :: next.2)

/-- The whole execution stage: pass 1 then pass 2, with the issued
calls collected in order. A pass 1 failure aborts with the error of
the failed category call; otherwise the pass 2 results are returned. -/
def execute (oracle : DirOracle) (channels : List NormalizedChannel) :
    List DirCall × Except (List Char) (List CreationResult) :=
  let p1 := pass1 oracle channels 0 []
  match p1.2 with
  | Except.error e => (p1.1, Except.error e)
  | Except.ok (k, m) =>
    let p2 := pass2 oracle m channels k
    (p1.1 ++ p2.1, Except.ok p2.2)

/-- The sentinel returned on line 73 when the response carries no
content. -/
def noResponseMsg : List Char := ("⚠️ No response").toList

/-- The message of the error thrown on line 79 after the attempts are
exhausted. -/
def unreachableMsg : List Char :=
  ("OpenRouter API unreachable after 3 attempts").toList

/-- Line 73: the first choice message content, or the sentinel when
it is absent or empty (falsy). -/
def contentOrFallback (c : Option (List Char)) : List Char :=
  match c with
  | some s => if s = [] then noResponseMsg else s
  | none => noResponseMsg

/-- The outcome of each HTTP attempt: a transport or status error, or
a response whose content may be absent. -/
def HttpOracle : Type := Nat → Except (List Char) (Option (List Char))

/-- The retry loop of lines 53 to 78, on the remaining attempt count.
Returns the result, the number of attempts made and the number of one
second sleeps performed (one after every failed attempt). -/
def callLoop (attempt : HttpOracle) :
    Nat → Nat → Except (List Char) (List Char) × Nat × Nat
  | _, 0 => (Except.error unreachableMsg, 0, 0)
  | i, r + 1 =>
    match attempt i with
    | Except.ok c => (Except.ok (contentOrFallback c), 1, 0)
    | Except.error _ =>
      let next := callLoop attempt (i + 1) r
      (next.1, next.2.1 + 1, next.2.2 + 1)

/-- callOpenRouter (lines 52 to 80): at most 3 attempts. -/
def callOpenRouter (attempt : HttpOracle) :
    Except (List Char) (List Char) × Nat × Nat :=
  callLoop attempt 0 3

/-- The channel type word shown in replies (the normalized type is a
plain string in the source). -/
def typeName : ChanType → List Char
  | ChanType.text => ("text").toList
  | ChanType.voice => ("voice").toList
  | ChanType.category => ("category").toList

/-- JS toUpperCase over the type word. -/
def upperChars (s : List Char) : List Char := s.map Char.toUpper

/-- One preview line (line 129). -/
def previewLine (c : NormalizedChannel) : List Char :=
  ("- ").toList ++ upperChars (typeName c.type) ++ (": ").toList ++ c.name ++
    (match c.parent with
     | some p =>
       if p = [] then [] else (" (parent: ").toList ++ p ++ (")").toList
     | none => [])

/-- Array.prototype.join with a newline separator. -/
def joinLines : List (List Char) → List Char
  | [] => []
  | [l] => l
  | l :: ls => l ++ '\n' :: joinLines ls

/-- The dry run reply of line 130. -/
def previewText (channels : List NormalizedChannel) : List Char :=
  ("**Preview (dry run)**\n").toList ++ joinLines (channels.map previewLine)

/-- One line of the creation report (line 159). -/
def resultLine : CreationResult → List Char
  | CreationResult.created n t => ("✅ ").toList ++ typeName t ++ (" ").toList ++ n
  | CreationResult.errored n e => ("⚠️ ").toList ++ n ++ (" — ").toList ++ e

/-- The stage of the handler after normalization (lines 128 to 163):
dry run renders the preview and issues no call; otherwise the two
passes run and the reply reports per item results, or the uncaught
error of pass 1. Returns the reply and the trace of issued calls. -/
def handleCreation (dryrun : Bool) (oracle : DirOracle)
    (channels : List NormalizedChannel) : List Char × List DirCall :=
  if dryrun then (previewText channels, [])
  else
    let r := execute oracle channels
    match r.2 with
    | Except.ok res =>
      (("**Channels Created**\n").toList ++ joinLines (res.map resultLine), r.1)
    | Except.error e => (("❌ Failed: ").toList ++ e, r.1)

/-- Rendering of one preview entry as the spec words it: a dash, the
uppercased type, a colon, the name, and a parent suffix exactly when
a parent is present. Stated from the spec for comparison with the
source built preview. -/
def specPreviewLine (c : NormalizedChannel) : List Char :=
  ("- ").toList ++ upperChars (typeName c.type) ++ (": ").toList ++ c.name ++
    (if jsTruthy c.parent then (" (parent: ").toList ++ c.parent.getD [] ++ (")").toList
     else [])

/-- Whether an Except value is a success. -/
def exIsOk {α β : Type} : Except α β → Bool
  | Except.ok _ => true
  | Except.error _ => false

/-! Helper lemmas on the sanitizer. -/

theorem collapse_sublist (l : List Char) :
    List.Sublist (collapseDashes l) l := by
  induction l using collapseDashes.induct with
  | case1 => simp [collapseDashes]
  | case2 c => simp [collapseDashes]
  | case3 a b rest h ih =>
    rw [collapseDashes, if_pos h]
    exact ih.trans (List.sublist_cons_self a (b :: rest))
  | case4 a b rest h ih =>
    rw [collapseDashes, if_neg h]
    exact List.Sublist.cons₂ a ih

theorem collapse_ne_nil (l : List Char) (h : l ≠ []) : collapseDashes l ≠ [] := by
  induction l using collapseDashes.induct with
  | case1 => exact absurd rfl h
  | case2 c => simp [collapseDashes]
  | case3 a b rest hab ih =>
    rw [collapseDashes, if_pos hab]
    exact ih (by simp)
  | case4 a b rest hab ih =>
    rw [collapseDashes, if_neg hab]
    simp

theorem collapse_cons_of_ne (b : Char) (t : List Char) (hb : b ≠ '-') :
    ∃ t2, collapseDashes (b :: t) = b :: t2 := by
  match t with
  | [] => exact ⟨[], rfl⟩
  | c :: t1 =>
    rw [collapseDashes, if_neg (by simp [hb])]
    exact ⟨collapseDashes (c :: t1), rfl⟩

theorem collapse_noDD (l : List Char) :
    containsSeq ('-' :: '-' :: []) (collapseDashes l) = false := by
  induction l using collapseDashes.induct with
  | case1 => rfl
  | case2 c => simp [containsSeq, startsWithSeq]
  | case3 a b rest h ih => rw [collapseDashes, if_pos h]; exact ih
  | case4 a b rest h ih =>
    rw [collapseDashes, if_neg h]
    rw [containsSeq, ih, Bool.or_false]
    by_cases ha : a = '-'
    · have hb : b ≠ '-' := by
        intro hb
        exact h (by simp [ha, hb])
      obtain ⟨t2, ht2⟩ := collapse_cons_of_ne b rest hb
      rw [ht2, startsWithSeq, startsWithSeq]
      simp [Ne.symm hb]
    · simp [startsWithSeq, Ne.symm ha]

theorem startsWith_take (pat : List Char) : ∀ (l : List Char) (n : Nat),
    startsWithSeq pat (l.take n) = true → startsWithSeq pat l = true := by
  induction pat with
  | nil => intro l n _; rfl
  | cons p ps ih =>
    intro l n h
    match l, n with
    | [], _ => simpa using h
    | c :: cs, 0 => simp [startsWithSeq] at h
    | c :: cs, n + 1 =>
      rw [List.take_succ_cons, startsWithSeq] at h
      rw [startsWithSeq]
      rcases Bool.and_eq_true_iff.mp h with ⟨h1, h2⟩
      exact Bool.and_eq_true_iff.mpr ⟨h1, ih cs n h2⟩

theorem containsSeq_take (pat : List Char) : ∀ (l : List Char) (n : Nat),
    containsSeq pat l = false → containsSeq pat (l.take n) = false := by
  intro l
  induction l with
  | nil => intro n h; simpa using h
  | cons c cs ih =>
    intro n h
    rw [containsSeq, Bool.or_eq_false_iff] at h
    match n with
    | 0 =>
      rw [List.take_zero, containsSeq]
      cases pat with
      | nil => exact absurd h.1 (by simp [startsWithSeq])
      | cons p ps => rfl
    | n + 1 =>
      rw [List.take_succ_cons, containsSeq, Bool.or_eq_false_iff]
      refine ⟨?_, ih n h.2⟩
      cases hs : startsWithSeq pat (c :: List.take n cs) with
      | false => rfl
      | true => exact absurd (startsWith_take pat (c :: cs) (n + 1) (by simpa using hs)) (by simp [h.1])

theorem replaceIllegal_all_legal (s : List Char) :
    (replaceIllegal s).all isLegalChar = true := by
  rw [List.all_eq_true]
  intro c hc
  rw [replaceIllegal, List.mem_map] at hc
  obtain ⟨a, _, ha⟩ := hc
  by_cases h : isLegalChar a = true
  · rw [← ha, if_pos h]; exact h
  · rw [← ha, if_neg h]; rfl

theorem sanitize_all_legal (s : List Char) :
    (sanitizeName s).all isLegalChar = true := by
  rw [List.all_eq_true]
  intro c hc
  have h1 : c ∈ collapseDashes (replaceIllegal (s.map Char.toLower)) :=
    (List.take_sublist 100 _).subset hc
  have h2 : c ∈ replaceIllegal (s.map Char.toLower) :=
    (collapse_sublist _).subset h1
  exact List.all_eq_true.mp (replaceIllegal_all_legal _) c h2

theorem sanitize_noDD (s : List Char) :
    containsSeq ('-' :: '-' :: []) (sanitizeName s) = false :=
  containsSeq_take _ _ 100 (collapse_noDD _)

theorem sanitize_len_le (s : List Char) : (sanitizeName s).length ≤ 100 := by
  rw [sanitizeName, List.length_take]
  exact min_le_left _ _

theorem sanitize_ne_nil (s : List Char) (h : s ≠ []) : sanitizeName s ≠ [] := by
  rw [← List.length_pos, sanitizeName, List.length_take]
  refine lt_min (by norm_num) ?_
  rw [List.length_pos]
  refine collapse_ne_nil _ ?_
  simp [replaceIllegal, h]

theorem jsOrStr_ne_nil (v : Option (List Char)) (fb : List Char) (hfb : fb ≠ []) :
    jsOrStr v fb ≠ [] := by
  match v with
  | none => exact hfb
  | some s =>
    rw [jsOrStr]
    by_cases hs : s = []
    · rw [if_pos hs]; exact hfb
    · rw [if_neg hs]; exact hs

theorem fallbackName_ne_nil (idx : Nat) : fallbackName idx ≠ [] := by
  rw [fallbackName,
    show ("channel-").toList
      = 'c' :: 'h' :: 'a' :: 'n' :: 'n' :: 'e' :: 'l' :: '-' :: [] from rfl]
  simp

theorem normalizeSpec_name_ne_nil (idx : Nat) (c : ChannelSpec) :
    (normalizeSpec idx c).name ≠ [] :=
  sanitize_ne_nil _ (jsOrStr_ne_nil _ _ (fallbackName_ne_nil idx))

theorem normalizeGo_mem (specs : List ChannelSpec) : ∀ (idx : Nat)
    (ch : NormalizedChannel), ch ∈ normalizeGo idx specs →
    ∃ i c, ch = normalizeSpec i c := by
  induction specs with
  | nil => intro idx ch h; simp [normalizeGo] at h
  | cons c rest ih =>
    intro idx ch h
    rw [normalizeGo, List.mem_cons] at h
    rcases h with h | h
    · exact ⟨idx, c, h⟩
    · exact ih (idx + 1) ch h

/-- Claim C3: for every input string the sanitizer output has only
characters among lowercase letters, digits and hyphen, holds no
double hyphen, and has length at most 100. -/
theorem c3_sanitize_safe : ∀ s : List Char,
    (sanitizeName s).all isLegalChar = true ∧
    containsSeq ('-' :: '-' :: []) (sanitizeName s) = false ∧
    (sanitizeName s).length ≤ 100 :=
  fun s => ⟨sanitize_all_legal s, sanitize_noDD s, sanitize_len_le s⟩

/-- Claim C4, refuted as stated: the spec whose source name is the
string bang a bang normalizes to a name with a leading and a trailing
hyphen, since the sanitizer never trims boundary hyphens. -/
theorem c4_counterexample :
    (normalizeSpec 0 ⟨some (("!a!").toList), none, none, none⟩).name
      = '-' :: 'a' :: '-' :: [] := by decide

/-- Claim C4 as amended: every name in a normalized batch has 1 to
100 characters drawn from lowercase letters, digits and hyphen, with
no double hyphen; leading or trailing hyphens can remain. -/
theorem c4_amended : ∀ (specs : List ChannelSpec),
    ∀ ch ∈ normalizeAll specs,
    1 ≤ ch.name.length ∧ ch.name.length ≤ 100 ∧
    ch.name.all isLegalChar = true ∧
    containsSeq ('-' :: '-' :: []) ch.name = false := by
  intro specs ch hch
  obtain ⟨i, c, rfl⟩ := normalizeGo_mem specs 0 ch hch
  refine ⟨?_, sanitize_len_le _, sanitize_all_legal _, sanitize_noDD _⟩
  rw [Nat.one_le_iff_ne_zero, Ne, List.length_eq_zero]
  exact normalizeSpec_name_ne_nil i c

/-- Witness for the amended claim C4 at a concrete batch. -/
theorem c4_witness :
    1 ≤ (normalizeSpec 0 ⟨some (("Team Alpha").toList), none, none, none⟩).name.length ∧
    (normalizeSpec 0 ⟨some (("Team Alpha").toList), none, none, none⟩).name.length ≤ 100 ∧
    (normalizeSpec 0 ⟨some (("Team Alpha").toList), none, none, none⟩).name.all isLegalChar = true ∧
    containsSeq ('-' :: '-' :: [])
      (normalizeSpec 0 ⟨some (("Team Alpha").toList), none, none, none⟩).name = false :=
  c4_amended [⟨some (("Team Alpha").toList), none, none, none⟩] _
    (by simp [normalizeAll, normalizeGo])

/-- Claim C9: planning never yields an empty name: a falsy source
name gets the positional fallback before sanitizing, and sanitizing a
nonempty string yields a nonempty string. -/
theorem c9_nonempty_names :
    (∀ s : List Char, s ≠ [] → sanitizeName s ≠ []) ∧
    (∀ (idx : Nat) (c : ChannelSpec), (c.name = none ∨ c.name = some []) →
       (normalizeSpec idx c).name = sanitizeName (fallbackName idx)) ∧
    (∀ specs : List ChannelSpec, ∀ ch ∈ normalizeAll specs, ch.name ≠ []) := by
  refine ⟨sanitize_ne_nil, ?_, ?_⟩
  · intro idx c h
    rcases h with h | h <;> simp [normalizeSpec, jsOrStr, h]
  · intro specs ch hch
    obtain ⟨i, c, rfl⟩ := normalizeGo_mem specs 0 ch hch
    exact normalizeSpec_name_ne_nil i c

/-- Witness for claim C9 at concrete inputs. -/
theorem c9_witness :
    sanitizeName ('a' :: []) ≠ [] ∧
    (normalizeSpec 0 ⟨none, none, none, none⟩).name = sanitizeName (fallbackName 0) ∧
    (normalizeSpec 0 ⟨none, none, none, none⟩).name ≠ [] :=
  ⟨c9_nonempty_names.1 ('a' :: []) (by decide),
   c9_nonempty_names.2.1 0 ⟨none, none, none, none⟩ (Or.inl rfl),
   c9_nonempty_names.2.2 [⟨none, none, none, none⟩] _ (by simp [normalizeAll, normalizeGo])⟩

/-- Claim C10: normalization coerces a falsy topic and a falsy parent
(absent or empty) to null, a normalized topic or parent is never the
empty string, and the create options never carry an empty topic. -/
theorem c10_falsy_null : ∀ (idx : Nat) (c : ChannelSpec),
    ((c.topic = none ∨ c.topic = some []) → (normalizeSpec idx c).topic = none) ∧
    ((c.parent = none ∨ c.parent = some []) → (normalizeSpec idx c).parent = none) ∧
    (normalizeSpec idx c).topic ≠ some [] ∧
    (normalizeSpec idx c).parent ≠ some [] ∧
    (∀ m, (buildOptions m (normalizeSpec idx c)).topic ≠ some []) := by
  intro idx c
  refine ⟨?_, ?_, ?_, ?_, ?_⟩
  · intro h; rcases h with h | h <;> simp [normalizeSpec, jsOrNull, h]
  · intro h; rcases h with h | h <;> simp [normalizeSpec, jsOrNull, h]
  · show jsOrNull c.topic ≠ some []
    match h : c.topic with
    | none => simp [jsOrNull]
    | some s =>
      rw [jsOrNull]
      by_cases hs : s = [] <;> simp [hs]
  · show jsOrNull c.parent ≠ some []
    match h : c.parent with
    | none => simp [jsOrNull]
    | some s =>
      rw [jsOrNull]
      by_cases hs : s = [] <;> simp [hs]
  · intro m
    show jsOrNull c.topic ≠ some []
    match h : c.topic with
    | none => simp [jsOrNull]
    | some s =>
      rw [jsOrNull]
      by_cases hs : s = [] <;> simp [hs]

/-- Witness for claim C10 at a concrete spec with empty topic and
empty parent. -/
theorem c10_witness :
    (normalizeSpec 0 ⟨none, none, some [], some []⟩).topic = none ∧
    (normalizeSpec 0 ⟨none, none, some [], some []⟩).parent = none :=
  ⟨(c10_falsy_null 0 ⟨none, none, some [], some []⟩).1 (Or.inr rfl),
   (c10_falsy_null 0 ⟨none, none, some [], some []⟩).2.1 (Or.inr rfl)⟩

/-! The dry run preview, claim C8. -/

theorem previewLine_eq_spec (c : NormalizedChannel) :
    previewLine c = specPreviewLine c := by
  rw [previewLine, specPreviewLine]
  match h : c.parent with
  | none => simp [jsTruthy]
  | some p =>
    by_cases hp : p = []
    · simp [jsTruthy, hp]
    · simp [jsTruthy, hp]

/-- Claim C8: with dryRun set, the handler issues no directory call
and replies with the preview header followed by one rendered entry
per normalized channel, joined by newlines, in input order; each
entry is a dash, the uppercased type, a colon, the name, and a parent
suffix exactly when a parent is present. -/
theorem c8_dry_run : ∀ (oracle : DirOracle) (channels : List NormalizedChannel),
    (handleCreation true oracle channels).2 = [] ∧
    (handleCreation true oracle channels).1 =
      ("**Preview (dry run)**\n").toList ++
        joinLines (channels.map specPreviewLine) := by
  intro oracle channels
  constructor
  · rfl
  · show previewText channels = _
    rw [previewText]
    congr 1
    congr 1
    exact List.map_congr_left fun c _ => previewLine_eq_spec c

/-! The OpenRouter retry loop, claim C5. -/

theorem callLoop_attempts_le (attempt : HttpOracle) :
    ∀ (r i : Nat), (callLoop attempt i r).2.1 ≤ r := by
  intro r
  induction r with
  | zero => intro i; exact Nat.le_refl 0
  | succ r ih =>
    intro i
    rw [callLoop]
    match attempt i with
    | Except.ok c => exact Nat.succ_le_succ (Nat.zero_le r)
    | Except.error e => exact Nat.succ_le_succ (ih (i + 1))

theorem callLoop_all_fail (attempt : HttpOracle) :
    ∀ (r i : Nat), (∀ d, d < r → exIsOk (attempt (i + d)) = false) →
    callLoop attempt i r = (Except.error unreachableMsg, r, r) := by
  intro r
  induction r with
  | zero => intro i _; rfl
  | succ r ih =>
    intro i h
    have h0 := h 0 (Nat.succ_pos r)
    rw [Nat.add_zero] at h0
    rw [callLoop]
    cases ha : attempt i with
    | ok c => rw [ha] at h0; simp [exIsOk] at h0
    | error e =>
      have hrec : ∀ d, d < r → exIsOk (attempt (i + 1 + d)) = false := by
        intro d hd
        have := h (d + 1) (Nat.succ_lt_succ hd)
        rwa [show i + (d + 1) = i + 1 + d by omega] at this
      show ((callLoop attempt (i + 1) r).1, (callLoop attempt (i + 1) r).2.1 + 1,
        (callLoop attempt (i + 1) r).2.2 + 1) = (Except.error unreachableMsg, r + 1, r + 1)
      rw [ih (i + 1) hrec]

theorem callLoop_success (attempt : HttpOracle) :
    ∀ (r j i : Nat) (c : Option (List Char)), j < r →
    attempt (i + j) = Except.ok c →
    (∀ d, d < j → exIsOk (attempt (i + d)) = false) →
    callLoop attempt i r = (Except.ok (contentOrFallback c), j + 1, j) := by
  intro r
  induction r with
  | zero => intro j i c hj _ _; exact absurd hj (Nat.not_lt_zero j)
  | succ r ih =>
    intro j i c hj hok hprev
    match j with
    | 0 =>
      rw [Nat.add_zero] at hok
      rw [callLoop, hok]
    | j' + 1 =>
      have h0 := hprev 0 (Nat.succ_pos j')
      rw [Nat.add_zero] at h0
      rw [callLoop]
      cases ha : attempt i with
      | ok c2 => rw [ha] at h0; simp [exIsOk] at h0
      | error e =>
        have hok2 : attempt (i + 1 + j') = Except.ok c := by
          rwa [show i + 1 + j' = i + (j' + 1) by omega]
        have hprev2 : ∀ d, d < j' → exIsOk (attempt (i + 1 + d)) = false := by
          intro d hd
          have := hprev (d + 1) (Nat.succ_lt_succ hd)
          rwa [show i + (d + 1) = i + 1 + d by omega] at this
        show ((callLoop attempt (i + 1) r).1, (callLoop attempt (i + 1) r).2.1 + 1,
          (callLoop attempt (i + 1) r).2.2 + 1)
            = (Except.ok (contentOrFallback c), j' + 1 + 1, j' + 1)
        rw [ih j' (i + 1) c (Nat.lt_of_succ_lt_succ hj) hok2 hprev2]

/-- Claim C5 as amended: the completion call makes at most 3 attempts
with a one second sleep after each failed attempt; when every attempt
fails it fails with a fixed unavailability message that does not
carry the underlying error, and when an attempt succeeds it returns
that attempt content (or the no response sentinel when the content is
falsy). -/
theorem c5_retry : ∀ (attempt : HttpOracle),
    (callOpenRouter attempt).2.1 ≤ 3 ∧
    ((∀ i, i < 3 → exIsOk (attempt i) = false) →
       callOpenRouter attempt = (Except.error unreachableMsg, 3, 3)) ∧
    (∀ (j : Nat) (c : Option (List Char)), j < 3 → attempt j = Except.ok c →
       (∀ i, i < j → exIsOk (attempt i) = false) →
       callOpenRouter attempt = (Except.ok (contentOrFallback c), j + 1, j)) := by
  intro attempt
  refine ⟨callLoop_attempts_le attempt 3 0, ?_, ?_⟩
  · intro h
    exact callLoop_all_fail attempt 3 0 (by intro d hd; simpa using h d hd)
  · intro j c hj hok hprev
    refine callLoop_success attempt 3 j 0 c hj (by simpa using hok) ?_
    intro d hd
    simpa using hprev d hd

/-- Claim C5, refuted as stated on the carrying clause: when every
attempt fails with the message boom, the terminal error is the fixed
unavailability message, which does not contain boom. -/
theorem c5_counterexample :
    (callOpenRouter (fun _ => Except.error (("boom").toList))).1
        = Except.error unreachableMsg ∧
    containsSeq (("boom").toList) unreachableMsg = false := by
  exact ⟨rfl, rfl⟩

/-- Witness for the amended claim C5: an oracle failing once then
succeeding yields the second attempt content after 2 attempts and one
sleep. -/
theorem c5_witness :
    callOpenRouter
        (fun i => if i = 0 then Except.error (("x").toList)
                  else Except.ok (some (("hi").toList)))
      = (Except.ok (contentOrFallback (some (("hi").toList))), 2, 1) := by
  refine (c5_retry _).2.2 1 (some (("hi").toList)) (by omega) rfl ?_
  intro i hi
  interval_cases i
  rfl

/-! Step lemmas for the executor. -/

theorem literal_category_ne_voice : ("category").toList ≠ ("voice").toList := by decide

theorem literal_text_ne_voice : ("text").toList ≠ ("voice").toList := by decide

theorem literal_text_ne_category : ("text").toList ≠ ("category").toList := by decide

theorem pass1_nil (oracle : DirOracle) (k : Nat) (m : List (List Char × Nat)) :
    pass1 oracle [] k m = ([], Except.ok (k, m)) := rfl

theorem pass1_cons_noncat (oracle : DirOracle) (ch : NormalizedChannel)
    (rest : List NormalizedChannel) (k : Nat) (m : List (List Char × Nat))
    (hch : ch.type ≠ ChanType.category) :
    pass1 oracle (ch :: rest) k m = pass1 oracle rest k m := by
  rw [pass1, if_neg hch]

theorem pass1_cons_cat_ok (oracle : DirOracle) (ch : NormalizedChannel)
    (rest : List NormalizedChannel) (k : Nat) (m : List (List Char × Nat))
    (cr : Created) (hch : ch.type = ChanType.category) (ho : oracle k = Except.ok cr) :
    pass1 oracle (ch :: rest) k m =
      (DirCall.createCategory ch.name ::
         (pass1 oracle rest (k + 1) ((ch.name, cr.id) :: m)).1,
       (pass1 oracle rest (k + 1) ((ch.name, cr.id) :: m)).2) := by
  rw [pass1, if_pos hch, ho]

theorem pass2_nil (oracle : DirOracle) (m : List (List Char × Nat)) (k : Nat) :
    pass2 oracle m [] k = ([], []) := rfl

theorem execute_ok_shape (oracle : DirOracle) (chans : List NormalizedChannel)
    (calls1 : List DirCall) (k : Nat) (m : List (List Char × Nat))
    (h : pass1 oracle chans 0 [] = (calls1, Except.ok (k, m))) :
    execute oracle chans =
      (calls1 ++ (pass2 oracle m chans k).1, Except.ok (pass2 oracle m chans k).2) := by
  rw [execute, h]

theorem pass2_cons_cat (oracle : DirOracle) (m : List (List Char × Nat))
    (ch : NormalizedChannel) (rest : List NormalizedChannel) (k : Nat)
    (hch : ch.type = ChanType.category) :
    pass2 oracle m (ch :: rest) k = pass2 oracle m rest k := by
  rw [pass2, if_pos hch]

theorem pass2_cons_ok (oracle : DirOracle) (m : List (List Char × Nat))
    (ch : NormalizedChannel) (rest : List NormalizedChannel) (k : Nat)
    (cr : Created) (hch : ch.type ≠ ChanType.category) (ho : oracle k = Except.ok cr) :
    pass2 oracle m (ch :: rest) k =
      (DirCall.createChannel (buildOptions m ch) :: (pass2 oracle m rest (k + 1)).1,
       CreationResult.created cr.name ch.type :: (pass2 oracle m rest (k + 1)).2) := by
  rw [pass2, if_neg hch, ho]

theorem pass2_cons_err (oracle : DirOracle) (m : List (List Char × Nat))
    (ch : NormalizedChannel) (rest : List NormalizedChannel) (k : Nat)
    (e : List Char) (hch : ch.type ≠ ChanType.category) (ho : oracle k = Except.error e) :
    pass2 oracle m (ch :: rest) k =
      (DirCall.createChannel (buildOptions m ch) :: (pass2 oracle m rest (k + 1)).1,
       CreationResult.errored ch.name e :: (pass2 oracle m rest (k + 1)).2) := by
  rw [pass2, if_neg hch, ho]

/-! Claim C1: parent resolution. -/

/-- Claim C1, refuted as stated: with a category named Team Alpha
(sanitized to team-alpha) and a channel whose parent field is the
original name Team Alpha, the lookup misses the sanitized key and the
channel is created with no parent, not with the category id. -/
theorem c1_counterexample :
    (execute
        (fun k => if k = 0 then Except.ok ⟨100, ("team-alpha").toList⟩
                  else Except.ok ⟨101, ("general").toList⟩)
        (normalizeAll
          [⟨some (("Team Alpha").toList), some (("category").toList), none, none⟩,
           ⟨some (("general").toList), some (("text").toList), none,
             some (("Team Alpha").toList)⟩])).1
      = [DirCall.createCategory (("team-alpha").toList),
         DirCall.createChannel
           ⟨("general").toList, JsChannelType.guildText, none, none⟩] := by
  decide

/-- Claim C1 as amended: in a batch of a category spec (source name
S0) followed by a text spec whose parent field is P, the created
channel resolved parent equals the id returned by the category create
call exactly when P equals the sanitized category name; otherwise
(in particular when P is the original unsanitized name and sanitizing
changed it) the channel is created with no parent. -/
theorem c1_parent_resolution (s0 s1 P : List Char) (t0 t1 p0 : Option (List Char))
    (oracle : DirOracle) (cr : Created)
    (h0 : s0 ≠ []) (h1 : s1 ≠ []) (hP : P ≠ [])
    (ho : oracle 0 = Except.ok cr) :
    (execute oracle (normalizeAll
      [⟨some s0, some (("category").toList), t0, p0⟩,
       ⟨some s1, some (("text").toList), t1, some P⟩])).1
      = [DirCall.createCategory (sanitizeName s0),
         DirCall.createChannel
           { name := sanitizeName s1
           , type := JsChannelType.guildText
           , topic := jsOrNull t1
           , parent := if sanitizeName s0 = P then some cr.id else none }] := by
  have hcat : normalizeSpec 0 ⟨some s0, some (("category").toList), t0, p0⟩ =
      { name := sanitizeName s0, type := ChanType.category
      , topic := jsOrNull t0, parent := jsOrNull p0 } := by
    simp [normalizeSpec, jsOrStr, h0, literal_category_ne_voice]
  have hchild : normalizeSpec 1 ⟨some s1, some (("text").toList), t1, some P⟩ =
      { name := sanitizeName s1, type := ChanType.text
      , topic := jsOrNull t1, parent := some P } := by
    simp [normalizeSpec, jsOrStr, jsOrNull, h1, hP,
      literal_text_ne_voice, literal_text_ne_category]
  rw [normalizeAll, normalizeGo, normalizeGo, normalizeGo, hcat, hchild]
  have hp1 : pass1 oracle
      [{ name := sanitizeName s0, type := ChanType.category
       , topic := jsOrNull t0, parent := jsOrNull p0 },
       { name := sanitizeName s1, type := ChanType.text
       , topic := jsOrNull t1, parent := some P }] 0 []
      = ([DirCall.createCategory (sanitizeName s0)],
         Except.ok (1, [(sanitizeName s0, cr.id)])) := by
    rw [pass1_cons_cat_ok oracle _ _ 0 [] cr rfl ho,
      pass1_cons_noncat oracle _ _ 1 _ (by intro h; exact ChanType.noConfusion h),
      pass1_nil]
  rw [execute_ok_shape oracle _ _ 1 _ hp1,
    pass2_cons_cat oracle _ _ _ 1 rfl]
  have hbo : buildOptions [(sanitizeName s0, cr.id)]
      { name := sanitizeName s1, type := ChanType.text
      , topic := jsOrNull t1, parent := some P }
      = { name := sanitizeName s1
        , type := JsChannelType.guildText
        , topic := jsOrNull t1
        , parent := if sanitizeName s0 = P then some cr.id else none } := by
    by_cases hsp : sanitizeName s0 = P
    · simp [buildOptions, lookupMap, List.find?, hP, hsp]
    · simp [buildOptions, lookupMap, List.find?, hP, hsp]
  cases ho1 : oracle 1 with
  | ok cr2 =>
    rw [pass2_cons_ok oracle _ _ _ 1 cr2 (by intro h; exact ChanType.noConfusion h) ho1,
      pass2_nil, hbo]
    simp
  | error e =>
    rw [pass2_cons_err oracle _ _ _ 1 e (by intro h; exact ChanType.noConfusion h) ho1,
      pass2_nil, hbo]
    simp

/-- Witness for the amended claim C1: with the parent field equal to
the sanitized category name, the resolved parent is the category id. -/
theorem c1_witness :
    (execute
        (fun k => if k = 0 then Except.ok ⟨100, ("team-alpha").toList⟩
                  else Except.ok ⟨101, ("general").toList⟩)
        (normalizeAll
          [⟨some (("Team Alpha").toList), some (("category").toList), none, none⟩,
           ⟨some (("general").toList), some (("text").toList), none,
             some (("team-alpha").toList)⟩])).1
      = [DirCall.createCategory (sanitizeName (("Team Alpha").toList)),
         DirCall.createChannel
           { name := sanitizeName (("general").toList)
           , type := JsChannelType.guildText
           , topic := jsOrNull none
           , parent := if sanitizeName (("Team Alpha").toList) = ("team-alpha").toList
                       then some 100 else none }] := by
  exact c1_parent_resolution (("Team Alpha").toList) (("general").toList)
    (("team-alpha").toList) none none none _ ⟨100, ("team-alpha").toList⟩
    (by decide) (by decide) (by decide) rfl

/-! Claim C2: partial failure tolerance of the execution stage. -/

theorem pass1_no_cat (oracle : DirOracle) :
    ∀ (chans : List NormalizedChannel) (k : Nat) (m : List (List Char × Nat)),
    (∀ ch ∈ chans, ch.type ≠ ChanType.category) →
    pass1 oracle chans k m = ([], Except.ok (k, m)) := by
  intro chans
  induction chans with
  | nil => intro k m _; rfl
  | cons ch rest ih =>
    intro k m h
    rw [pass1_cons_noncat oracle ch rest k m (h ch (List.mem_cons_self ch rest))]
    exact ih k m fun c hc => h c (List.mem_cons_of_mem ch hc)

theorem pass2_all_ok (oracle : DirOracle) (m : List (List Char × Nat)) :
    ∀ (chans : List NormalizedChannel) (k : Nat),
    (∀ ch ∈ chans, ch.type ≠ ChanType.category) →
    (∀ d, d < chans.length → exIsOk (oracle (k + d)) = true) →
    (pass2 oracle m chans k).2.length = chans.length ∧
    List.countP isErroredRes (pass2 oracle m chans k).2 = 0 ∧
    List.countP isCreatedRes (pass2 oracle m chans k).2 = chans.length := by
  intro chans
  induction chans with
  | nil => intro k _ _; exact ⟨rfl, rfl, rfl⟩
  | cons ch rest ih =>
    intro k hnc hok
    have hch : ch.type ≠ ChanType.category := hnc ch (List.mem_cons_self ch rest)
    have h0 : exIsOk (oracle k) = true := by
      have := hok 0 (Nat.succ_pos rest.length)
      rwa [Nat.add_zero] at this
    cases ha : oracle k with
    | error e => rw [ha] at h0; simp [exIsOk] at h0
    | ok cr =>
      rw [pass2_cons_ok oracle m ch rest k cr hch ha]
      have ihr := ih (k + 1)
        (fun c hc => hnc c (List.mem_cons_of_mem ch hc))
        (by
          intro d hd
          have := hok (d + 1) (Nat.succ_lt_succ hd)
          rwa [show k + (d + 1) = k + 1 + d by omega] at this)
      refine ⟨?_, ?_, ?_⟩
      · simp [ihr.1]
      · rw [List.countP_cons_of_neg isErroredRes _ (by simp [isErroredRes])]
        exact ihr.2.1
      · rw [List.countP_cons_of_pos isCreatedRes _ (by simp [isCreatedRes])]
        rw [ihr.2.2, List.length_cons]

theorem pass2_one_fail (oracle : DirOracle) (m : List (List Char × Nat)) :
    ∀ (chans : List NormalizedChannel) (k j : Nat),
    (∀ ch ∈ chans, ch.type ≠ ChanType.category) →
    j < chans.length →
    exIsOk (oracle (k + j)) = false →
    (∀ d, d < chans.length → d ≠ j → exIsOk (oracle (k + d)) = true) →
    (pass2 oracle m chans k).2.length = chans.length ∧
    List.countP isErroredRes (pass2 oracle m chans k).2 = 1 ∧
    List.countP isCreatedRes (pass2 oracle m chans k).2 = chans.length - 1 := by
  intro chans
  induction chans with
  | nil => intro k j _ hj _ _; exact absurd hj (Nat.not_lt_zero j)
  | cons ch rest ih =>
    intro k j hnc hj hfail hok
    have hch : ch.type ≠ ChanType.category := hnc ch (List.mem_cons_self ch rest)
    match j with
    | 0 =>
      rw [Nat.add_zero] at hfail
      cases ha : oracle k with
      | ok cr => rw [ha] at hfail; simp [exIsOk] at hfail
      | error e =>
        rw [pass2_cons_err oracle m ch rest k e hch ha]
        have hrest := pass2_all_ok oracle m rest (k + 1)
          (fun c hc => hnc c (List.mem_cons_of_mem ch hc))
          (by
            intro d hd
            have := hok (d + 1) (Nat.succ_lt_succ hd) (Nat.succ_ne_zero d)
            rwa [show k + (d + 1) = k + 1 + d by omega] at this)
        refine ⟨?_, ?_, ?_⟩
        · simp [hrest.1]
        · rw [List.countP_cons_of_pos isErroredRes _ (by simp [isErroredRes])]
          rw [hrest.2.1]
        · rw [List.countP_cons_of_neg isCreatedRes _ (by simp [isCreatedRes])]
          rw [hrest.2.2, List.length_cons]
          omega
    | j' + 1 =>
      have h0 : exIsOk (oracle k) = true := by
        have := hok 0 (Nat.succ_pos rest.length) (by omega)
        rwa [Nat.add_zero] at this
      cases ha : oracle k with
      | error e => rw [ha] at h0; simp [exIsOk] at h0
      | ok cr =>
        rw [pass2_cons_ok oracle m ch rest k cr hch ha]
        have hj' : j' < rest.length := Nat.lt_of_succ_lt_succ hj
        have ihr := ih (k + 1) j'
          (fun c hc => hnc c (List.mem_cons_of_mem ch hc))
          hj'
          (by rwa [show k + 1 + j' = k + (j' + 1) by omega])
          (by
            intro d hd hdj
            have := hok (d + 1) (Nat.succ_lt_succ hd) (by omega)
            rwa [show k + (d + 1) = k + 1 + d by omega] at this)
        refine ⟨?_, ?_, ?_⟩
        · simp [ihr.1]
        · rw [List.countP_cons_of_neg isErroredRes _ (by simp [isErroredRes])]
          exact ihr.2.1
        · rw [List.countP_cons_of_pos isCreatedRes _ (by simp [isCreatedRes])]
          rw [ihr.2.2, List.length_cons]
          omega

/-- Claim C2, refuted as stated: a batch of two specs, a category and
a text channel, where the second of the two create calls fails and
the first succeeds, yields only one per item result, not two: the
category pass records no result entries. -/
theorem c2_counterexample :
    (execute
        (fun i => if i = 0 then Except.ok ⟨100, ("a").toList⟩
                  else Except.error (("boom").toList))
        [⟨("a").toList, ChanType.category, none, none⟩,
         ⟨("b").toList, ChanType.text, none, none⟩]).2
      = Except.ok [CreationResult.errored (("b").toList) (("boom").toList)] ∧
    ([⟨("a").toList, ChanType.category, none, none⟩,
      (⟨("b").toList, ChanType.text, none, none⟩ : NormalizedChannel)]).length = 2 := by
  exact ⟨rfl, rfl⟩

/-- Claim C2 as amended: for a batch of N specs none of which is a
category, when the k th create call fails and all others succeed,
execution returns N per item results with exactly one marked as an
error and N minus one marked as created. Categories are excluded:
they produce no result entries and an uncaught failure of a category
create aborts the whole execution. -/
theorem c2_partial_failure (oracle : DirOracle) (chans : List NormalizedChannel) (k : Nat)
    (hnc : ∀ ch ∈ chans, ch.type ≠ ChanType.category)
    (hk : k < chans.length)
    (hfail : exIsOk (oracle k) = false)
    (hok : ∀ i, i < chans.length → i ≠ k → exIsOk (oracle i) = true) :
    ∃ res, (execute oracle chans).2 = Except.ok res ∧
      res.length = chans.length ∧
      List.countP isErroredRes res = 1 ∧
      List.countP isCreatedRes res = chans.length - 1 := by
  rw [execute_ok_shape oracle chans [] 0 [] (pass1_no_cat oracle chans 0 [] hnc)]
  refine ⟨(pass2 oracle [] chans 0).2, rfl, ?_⟩
  refine pass2_one_fail oracle [] chans 0 k hnc hk (by simpa using hfail) ?_
  intro d hd hdk
  simpa using hok d hd hdk

/-- Witness for the amended claim C2 on a concrete two channel batch
whose first call fails. -/
theorem c2_witness :
    ∃ res, (execute
        (fun i => if i = 0 then Except.error (("boom").toList)
                  else Except.ok ⟨101, ("b").toList⟩)
        [⟨("a").toList, ChanType.text, none, none⟩,
         ⟨("b").toList, ChanType.text, none, none⟩]).2 = Except.ok res ∧
      res.length = 2 ∧
      List.countP isErroredRes res = 1 ∧
      List.countP isCreatedRes res = 2 - 1 := by
  exact c2_partial_failure _ _ 0 (by decide) (by decide) rfl
    (by
      intro i hi hik
      have hi2 : i < 2 := by simpa using hi
      interval_cases i
      · exact absurd rfl hik
      · rfl)

/-! Suffix lemmas for the JSON parser: every sub parser returns a
suffix of its input as the remainder. -/

theorem digitSpan_snd_suffix (s : List Char) : (digitSpan s).2 <:+ s :=
  List.dropWhile_suffix Char.isDigit

theorem parseIntPart_suffix (s lex r : List Char)
    (h : parseIntPart s = some (lex, r)) : r <:+ s := by
  match s with
  | [] => simp [parseIntPart] at h
  | c :: t =>
    rw [parseIntPart] at h
    by_cases h0 : c = '0'
    · rw [if_pos h0] at h
      injection h with h1
      injection h1 with _ h2
      rw [← h2]
      exact List.suffix_cons c t
    · rw [if_neg h0] at h
      by_cases hd : c.isDigit
      · rw [if_pos hd] at h
        injection h with h1
        injection h1 with _ h2
        rw [← h2]
        exact (digitSpan_snd_suffix t).trans (List.suffix_cons c t)
      · rw [if_neg hd] at h
        exact absurd h (by simp)

theorem parseFracPart_suffix (s lex r : List Char)
    (h : parseFracPart s = some (lex, r)) : r <:+ s := by
  match s with
  | [] =>
    rw [parseFracPart] at h
    injection h with h1
    injection h1 with _ h2
    rw [← h2]
  | c :: t =>
    rw [parseFracPart] at h
    by_cases hc : c = '.'
    · rw [if_pos hc] at h
      by_cases hd : (digitSpan t).1 = []
      · rw [if_pos hd] at h; exact absurd h (by simp)
      · rw [if_neg hd] at h
        injection h with h1
        injection h1 with _ h2
        rw [← h2]
        exact (digitSpan_snd_suffix t).trans (List.suffix_cons c t)
    · rw [if_neg hc] at h
      injection h with h1
      injection h1 with _ h2
      rw [← h2]

theorem parseExpPart_suffix (s lex r : List Char)
    (h : parseExpPart s = some (lex, r)) : r <:+ s := by
  match s with
  | [] =>
    rw [parseExpPart] at h
    injection h with h1
    injection h1 with _ h2
    rw [← h2]
  | c :: t =>
    rw [parseExpPart.eq_def] at h
    simp only [] at h
    by_cases he : (c = 'e' || c = 'E') = true
    · rw [if_pos he] at h
      split at h
      · exact absurd h (by simp)
      · next sg t2 =>
        by_cases hs : (sg = '+' || sg = '-') = true
        · rw [if_pos hs] at h
          by_cases hd : (digitSpan t2).1 = []
          · rw [if_pos hd] at h; exact absurd h (by simp)
          · rw [if_neg hd] at h
            injection h with h1
            injection h1 with _ h2
            rw [← h2]
            exact ((digitSpan_snd_suffix t2).trans (List.suffix_cons sg t2)).trans
              (List.suffix_cons c (sg :: t2))
        · rw [if_neg hs] at h
          by_cases hd : (digitSpan (sg :: t2)).1 = []
          · rw [if_pos hd] at h; exact absurd h (by simp)
          · rw [if_neg hd] at h
            injection h with h1
            injection h1 with _ h2
            rw [← h2]
            exact (digitSpan_snd_suffix (sg :: t2)).trans (List.suffix_cons c (sg :: t2))
    · rw [if_neg he] at h
      injection h with h1
      injection h1 with _ h2
      rw [← h2]

theorem parseSignPart_suffix (s : List Char) : (parseSignPart s).2 <:+ s := by
  match s with
  | [] => rw [parseSignPart]
  | c :: r =>
    rw [parseSignPart]
    by_cases hc : c = '-'
    · rw [if_pos hc]
      exact List.suffix_cons c r
    · rw [if_neg hc]

theorem parseNumber_suffix (s lex r : List Char)
    (h : parseNumber s = some (lex, r)) : r <:+ s := by
  rw [parseNumber.eq_def] at h
  split at h
  · exact absurd h (by simp)
  · next ip s2 hip =>
    split at h
    · exact absurd h (by simp)
    · next fp s3 hfp =>
      split at h
      · exact absurd h (by simp)
      · next ep s4 hep =>
        injection h with h1
        injection h1 with _ h2
        rw [← h2]
        exact ((parseExpPart_suffix s3 ep s4 hep).trans
          ((parseFracPart_suffix s2 fp s3 hfp).trans
            (parseIntPart_suffix (parseSignPart s).2 ip s2 hip))).trans
          (parseSignPart_suffix s)

theorem parseStringBody_suffix : ∀ (fuel : Nat) (s t r : List Char),
    parseStringBody fuel s = some (t, r) → r <:+ s := by
  intro fuel
  induction fuel with
  | zero => intro s t r h; simp [parseStringBody] at h
  | succ fuel ih =>
    intro s t r h
    match s with
    | [] => simp [parseStringBody] at h
    | c :: rest =>
      rw [parseStringBody.eq_def] at h
      simp only [] at h
      by_cases hq : c = '"'
      · rw [if_pos hq] at h
        injection h with h1
        injection h1 with _ h2
        rw [← h2]
        exact List.suffix_cons c rest
      · rw [if_neg hq] at h
        by_cases hb : c = '\\'
        · rw [if_pos hb] at h
          split at h
          · exact absurd h (by simp)
          · next e rest2 =>
            by_cases hu : e = 'u'
            · rw [if_pos hu] at h
              split at h
              all_goals try exact Option.noConfusion h
              next h1c h2c h3c h4c rest4 =>
              split at h
              all_goals try exact Option.noConfusion h
              next a b c2 d ha hb2 hc2 hd2 =>
              split at h
              all_goals try exact Option.noConfusion h
              next tail r2 hrec =>
              injection h with hh
              injection hh with _ h2
              rw [← h2]
              refine (ih rest4 tail r2 hrec).trans ?_
              refine (List.suffix_cons h4c rest4).trans ?_
              refine (List.suffix_cons h3c _).trans ?_
              refine (List.suffix_cons h2c _).trans ?_
              refine (List.suffix_cons h1c _).trans ?_
              refine (List.suffix_cons e _).trans ?_
              exact List.suffix_cons c _
            · rw [if_neg hu] at h
              split at h
              all_goals try exact Option.noConfusion h
              next d hd2 =>
              split at h
              all_goals try exact Option.noConfusion h
              next tail r2 hrec =>
              injection h with hh
              injection hh with _ h2
              rw [← h2]
              refine (ih rest2 tail r2 hrec).trans ?_
              exact (List.suffix_cons e rest2).trans (List.suffix_cons c _)
        · rw [if_neg hb] at h
          by_cases hctl : c.toNat < 32
          · rw [if_pos hctl] at h; exact absurd h (by simp)
          · rw [if_neg hctl] at h
            split at h
            all_goals try exact Option.noConfusion h
            next tail r2 hrec =>
            injection h with hh
            injection hh with _ h2
            rw [← h2]
            exact (ih rest tail r2 hrec).trans (List.suffix_cons c rest)

theorem skipWs_suffix (s : List Char) : skipWs s <:+ s :=
  List.dropWhile_suffix isJsonWs

theorem parse_suffix : ∀ fuel : Nat,
    (∀ (s : List Char) (v : Json) (r : List Char),
       parseValue fuel s = some (v, r) → r <:+ s) ∧
    (∀ (s : List Char) (l : List Json) (r : List Char),
       parseArrItems fuel s = some (l, r) → r <:+ s) ∧
    (∀ (s : List Char) (l : List (List Char × Json)) (r : List Char),
       parseObjItems fuel s = some (l, r) → r <:+ s) := by
  intro fuel
  induction fuel with
  | zero =>
    refine ⟨?_, ?_, ?_⟩ <;> intro s v r h <;> exact Option.noConfusion h
  | succ fuel ih =>
    obtain ⟨ihv, iha, iho⟩ := ih
    refine ⟨?_, ?_, ?_⟩
    · intro s v r h
      rw [parseValue.eq_def] at h
      simp only [] at h
      split at h
      · exact Option.noConfusion h
      · next c rest heq =>
        have hcr : c :: rest <:+ s := heq ▸ skipWs_suffix s
        have hrest : rest <:+ s := (List.suffix_cons c rest).trans hcr
        by_cases h1 : c = '{'
        · rw [if_pos h1] at h
          split at h
          · exact Option.noConfusion h
          · next c2 r2 heq2 =>
            have hr2 : r2 <:+ rest :=
              (List.suffix_cons c2 r2).trans (heq2 ▸ skipWs_suffix rest)
            by_cases h2 : c2 = '}'
            · rw [if_pos h2] at h
              injection h with hh
              injection hh with _ hr
              rw [← hr]
              exact hr2.trans hrest
            · rw [if_neg h2] at h
              split at h
              · next fs r3 heq3 =>
                injection h with hh
                injection hh with _ hr
                rw [← hr]
                exact (iho rest fs r3 heq3).trans hrest
              · exact Option.noConfusion h
        · rw [if_neg h1] at h
          by_cases h2 : c = '['
          · rw [if_pos h2] at h
            split at h
            · exact Option.noConfusion h
            · next c2 r2 heq2 =>
              have hr2 : r2 <:+ rest :=
                (List.suffix_cons c2 r2).trans (heq2 ▸ skipWs_suffix rest)
              by_cases hb : c2 = ']'
              · rw [if_pos hb] at h
                injection h with hh
                injection hh with _ hr
                rw [← hr]
                exact hr2.trans hrest
              · rw [if_neg hb] at h
                split at h
                · next es r3 heq3 =>
                  injection h with hh
                  injection hh with _ hr
                  rw [← hr]
                  exact (iha rest es r3 heq3).trans hrest
                · exact Option.noConfusion h
          · rw [if_neg h2] at h
            by_cases h3 : c = '"'
            · rw [if_pos h3] at h
              split at h
              · next v2 r2 heq2 =>
                injection h with hh
                injection hh with _ hr
                rw [← hr]
                exact (parseStringBody_suffix fuel rest v2 r2 heq2).trans hrest
              · exact Option.noConfusion h
            · rw [if_neg h3] at h
              by_cases h4 : ("true").toList.isPrefixOf (c :: rest) = true
              · rw [if_pos h4] at h
                injection h with hh
                injection hh with _ hr
                rw [← hr]
                exact (List.drop_suffix 4 (c :: rest)).trans hcr
              · rw [if_neg h4] at h
                by_cases h5 : ("false").toList.isPrefixOf (c :: rest) = true
                · rw [if_pos h5] at h
                  injection h with hh
                  injection hh with _ hr
                  rw [← hr]
                  exact (List.drop_suffix 5 (c :: rest)).trans hcr
                · rw [if_neg h5] at h
                  by_cases h6 : ("null").toList.isPrefixOf (c :: rest) = true
                  · rw [if_pos h6] at h
                    injection h with hh
                    injection hh with _ hr
                    rw [← hr]
                    exact (List.drop_suffix 4 (c :: rest)).trans hcr
                  · rw [if_neg h6] at h
                    split at h
                    · next lex r2 heq2 =>
                      injection h with hh
                      injection hh with _ hr
                      rw [← hr]
                      exact (parseNumber_suffix (c :: rest) lex r2 heq2).trans hcr
                    · exact Option.noConfusion h
    · intro s l r h
      rw [parseArrItems.eq_def] at h
      simp only [] at h
      split at h
      · exact Option.noConfusion h
      · next v r1 heq1 =>
        have hr1 : r1 <:+ s := ihv s v r1 heq1
        split at h
        · exact Option.noConfusion h
        · next c2 r2 heq2 =>
          have hr2 : r2 <:+ r1 :=
            (List.suffix_cons c2 r2).trans (heq2 ▸ skipWs_suffix r1)
          by_cases hc : c2 = ','
          · rw [if_pos hc] at h
            split at h
            · next vs r3 heq3 =>
              injection h with hh
              injection hh with _ hr
              rw [← hr]
              exact (iha r2 vs r3 heq3).trans (hr2.trans hr1)
            · exact Option.noConfusion h
          · rw [if_neg hc] at h
            by_cases hb : c2 = ']'
            · rw [if_pos hb] at h
              injection h with hh
              injection hh with _ hr
              rw [← hr]
              exact hr2.trans hr1
            · rw [if_neg hb] at h
              exact Option.noConfusion h
    · intro s l r h
      rw [parseObjItems.eq_def] at h
      simp only [] at h
      split at h
      · exact Option.noConfusion h
      · next c rest heq =>
        have hrest : rest <:+ s :=
          (List.suffix_cons c rest).trans (heq ▸ skipWs_suffix s)
        by_cases hq : c = '"'
        · rw [if_pos hq] at h
          split at h
          · exact Option.noConfusion h
          · next key r1 heq1 =>
            have hr1 : r1 <:+ rest := parseStringBody_suffix fuel rest key r1 heq1
            split at h
            · exact Option.noConfusion h
            · next c2 r2 heq2 =>
              have hr2 : r2 <:+ r1 :=
                (List.suffix_cons c2 r2).trans (heq2 ▸ skipWs_suffix r1)
              by_cases hcol : c2 = ':'
              · rw [if_pos hcol] at h
                split at h
                · exact Option.noConfusion h
                · next v r3 heq3 =>
                  have hr3 : r3 <:+ r2 := ihv r2 v r3 heq3
                  split at h
                  · exact Option.noConfusion h
                  · next c3 r4 heq4 =>
                    have hr4 : r4 <:+ r3 :=
                      (List.suffix_cons c3 r4).trans (heq4 ▸ skipWs_suffix r3)
                    have hr4s : r4 <:+ s :=
                      (((hr4.trans hr3).trans hr2).trans hr1).trans hrest
                    by_cases hcm : c3 = ','
                    · rw [if_pos hcm] at h
                      split at h
                      · next fs r5 heq5 =>
                        injection h with hh
                        injection hh with _ hr
                        rw [← hr]
                        exact (iho r4 fs r5 heq5).trans hr4s
                      · exact Option.noConfusion h
                    · rw [if_neg hcm] at h
                      by_cases hcb : c3 = '}'
                      · rw [if_pos hcb] at h
                        injection h with hh
                        injection hh with _ hr
                        rw [← hr]
                        exact hr4s
                      · rw [if_neg hcb] at h
                        exact Option.noConfusion h
              · rw [if_neg hcol] at h
                exact Option.noConfusion h
        · rw [if_neg hq] at h
          exact Option.noConfusion h

theorem parseArrItems_close : ∀ (fuel : Nat) (s : List Char) (l : List Json)
    (r : List Char), parseArrItems fuel s = some (l, r) → ']' ∈ s := by
  intro fuel
  induction fuel with
  | zero => intro s l r h; exact Option.noConfusion h
  | succ fuel ih =>
    intro s l r h
    rw [parseArrItems.eq_def] at h
    simp only [] at h
    split at h
    · exact Option.noConfusion h
    · next v r1 heq1 =>
      have hr1 : r1 <:+ s := (parse_suffix fuel).1 s v r1 heq1
      split at h
      · exact Option.noConfusion h
      · next c2 r2 heq2 =>
        have hcr2 : c2 :: r2 <:+ r1 := heq2 ▸ skipWs_suffix r1
        by_cases hc : c2 = ','
        · rw [if_pos hc] at h
          split at h
          · next vs r3 heq3 =>
            have hmem : ']' ∈ r2 := ih r2 vs r3 heq3
            exact hr1.subset (hcr2.subset (List.mem_cons_of_mem c2 hmem))
          · exact Option.noConfusion h
        · rw [if_neg hc] at h
          by_cases hb : c2 = ']'
          · rw [← hb]
            exact hr1.subset (hcr2.subset (List.mem_cons_self c2 r2))
          · rw [if_neg hb] at h
            exact Option.noConfusion h

theorem parseValue_arr (fuel : Nat) (s : List Char) (es : List Json) (r : List Char)
    (h : parseValue fuel s = some (Json.arr es, r)) :
    ∃ rest, skipWs s = '[' :: rest ∧ ']' ∈ rest := by
  match fuel with
  | 0 => exact Option.noConfusion h
  | fuel + 1 =>
    rw [parseValue.eq_def] at h
    simp only [] at h
    split at h
    · exact Option.noConfusion h
    · next c rest heq =>
      by_cases h1 : c = '{'
      · rw [if_pos h1] at h
        split at h
        · exact Option.noConfusion h
        · next c2 r2 heq2 =>
          by_cases h2 : c2 = '}'
          · rw [if_pos h2] at h
            injection h with hh
            injection hh with hv _
            exact Json.noConfusion hv
          · rw [if_neg h2] at h
            split at h
            · next fs r3 heq3 =>
              injection h with hh
              injection hh with hv _
              exact Json.noConfusion hv
            · exact Option.noConfusion h
      · rw [if_neg h1] at h
        by_cases h2 : c = '['
        · rw [if_pos h2] at h
          subst h2
          split at h
          · exact Option.noConfusion h
          · next c2 r2 heq2 =>
            by_cases hb : c2 = ']'
            · refine ⟨rest, heq, ?_⟩
              rw [← hb]
              exact (skipWs_suffix rest).subset (heq2 ▸ List.mem_cons_self c2 r2)
            · rw [if_neg hb] at h
              split at h
              · next es2 r3 heq3 =>
                exact ⟨rest, heq, parseArrItems_close fuel rest es2 r3 heq3⟩
              · exact Option.noConfusion h
        · rw [if_neg h2] at h
          by_cases h3 : c = '"'
          · rw [if_pos h3] at h
            split at h
            · next v2 r2 heq2 =>
              injection h with hh
              injection hh with hv _
              exact Json.noConfusion hv
            · exact Option.noConfusion h
          · rw [if_neg h3] at h
            by_cases h4 : ("true").toList.isPrefixOf (c :: rest) = true
            · rw [if_pos h4] at h
              injection h with hh
              injection hh with hv _
              exact Json.noConfusion hv
            · rw [if_neg h4] at h
              by_cases h5 : ("false").toList.isPrefixOf (c :: rest) = true
              · rw [if_pos h5] at h
                injection h with hh
                injection hh with hv _
                exact Json.noConfusion hv
              · rw [if_neg h5] at h
                by_cases h6 : ("null").toList.isPrefixOf (c :: rest) = true
                · rw [if_pos h6] at h
                  injection h with hh
                  injection hh with hv _
                  exact Json.noConfusion hv
                · rw [if_neg h6] at h
                  split at h
                  · next lex r2 heq2 =>
                    injection h with hh
                    injection hh with hv _
                    exact Json.noConfusion hv
                  · exact Option.noConfusion h

theorem get?_append_len {α : Type} (l₁ l₂ : List α) (n : Nat) :
    (l₁ ++ l₂).get? (l₁.length + n) = l₂.get? n := by
  induction l₁ with
  | nil => simp
  | cons a t ih =>
    show (a :: (t ++ l₂)).get? (t.length + 1 + n) = l₂.get? n
    rw [show t.length + 1 + n = (t.length + n) + 1 by omega]
    exact ih

theorem drop_len_append {α : Type} (l₁ l₂ : List α) :
    (l₁ ++ l₂).drop l₁.length = l₂ := by
  induction l₁ with
  | nil => rfl
  | cons a t ih => exact ih

theorem take_len_append {α : Type} (l₁ l₂ : List α) :
    (l₁ ++ l₂).take l₁.length = l₁ := by
  induction l₁ with
  | nil => rfl
  | cons a t ih => simp [ih]

theorem parseJson_arr_brackets (s : List Char) (es : List Json)
    (h : parseJson s = Except.ok (Json.arr es)) :
    ∃ i j, i < j ∧ s.get? i = some '[' ∧ s.get? j = some ']' := by
  rw [parseJson] at h
  split at h
  · next v rest heq =>
    by_cases hws : skipWs rest = []
    · rw [if_pos hws] at h
      injection h with hv
      subst hv
      obtain ⟨rest2, hsw, hmem⟩ := parseValue_arr _ s es rest heq
      have hsplit : List.takeWhile isJsonWs s ++ ('[' :: rest2) = s := by
        rw [← hsw]
        exact List.takeWhile_append_dropWhile isJsonWs s
      obtain ⟨n, hn⟩ := List.get?_of_mem hmem
      have h1 := get?_append_len (List.takeWhile isJsonWs s) ('[' :: rest2) 0
      rw [hsplit] at h1
      have h2 := get?_append_len (List.takeWhile isJsonWs s) ('[' :: rest2) (n + 1)
      rw [hsplit] at h2
      refine ⟨(List.takeWhile isJsonWs s).length + 0,
        (List.takeWhile isJsonWs s).length + (n + 1), by omega, ?_, ?_⟩
      · exact h1
      · rw [h2]
        exact hn
    · rw [if_neg hws] at h
      exact Except.noConfusion h
  · exact Except.noConfusion h

/-! Index lemmas for the regex match of line 117. -/

theorem firstIdxOf_get (a : Char) : ∀ (l : List Char) (i : Nat),
    firstIdxOf a l = some i → l.get? i = some a := by
  intro l
  induction l with
  | nil => intro i h; exact Option.noConfusion h
  | cons c rest ih =>
    intro i h
    rw [firstIdxOf] at h
    by_cases hc : c = a
    · rw [if_pos hc] at h
      injection h with h1
      rw [← h1, hc]
      rfl
    · rw [if_neg hc] at h
      match hf : firstIdxOf a rest with
      | none => rw [hf] at h; exact Option.noConfusion h
      | some i2 =>
        rw [hf] at h
        injection h with h1
        rw [← h1]
        exact ih i2 hf

theorem lastIdxOf_get (a : Char) : ∀ (l : List Char) (i : Nat),
    lastIdxOf a l = some i → l.get? i = some a := by
  intro l
  induction l with
  | nil => intro i h; exact Option.noConfusion h
  | cons c rest ih =>
    intro i h
    rw [lastIdxOf] at h
    match hf : lastIdxOf a rest with
    | some i2 =>
      rw [hf] at h
      injection h with h1
      rw [← h1]
      exact ih i2 hf
    | none =>
      rw [hf] at h
      by_cases hc : c = a
      · rw [if_pos hc] at h
        injection h with h1
        rw [← h1, hc]
        rfl
      · rw [if_neg hc] at h
        exact Option.noConfusion h

theorem lastIdxOf_none_of_not_mem (a : Char) :
    ∀ l : List Char, a ∉ l → lastIdxOf a l = none := by
  intro l
  induction l with
  | nil => intro _; rfl
  | cons c rest ih =>
    intro h
    rw [lastIdxOf, ih (fun hm => h (List.mem_cons_of_mem c hm))]
    rw [if_neg (fun hc : c = a => h (by rw [← hc]; exact List.mem_cons_self c rest))]

theorem firstIdxOf_cons_self (a : Char) (t : List Char) :
    firstIdxOf a (a :: t) = some 0 := by
  rw [firstIdxOf, if_pos rfl]

theorem firstIdxOf_append (a : Char) : ∀ (l₁ l₂ : List Char) (i : Nat),
    a ∉ l₁ → firstIdxOf a l₂ = some i →
    firstIdxOf a (l₁ ++ l₂) = some (l₁.length + i) := by
  intro l₁
  induction l₁ with
  | nil =>
    intro l₂ i _ h2
    rw [List.nil_append, h2, List.length_nil, Nat.zero_add]
  | cons c t ih =>
    intro l₂ i h1 h2
    rw [List.cons_append, firstIdxOf,
      if_neg (fun hc : c = a => h1 (by rw [← hc]; exact List.mem_cons_self c t)),
      ih l₂ i (fun hm => h1 (List.mem_cons_of_mem c hm)) h2]
    rw [show Option.map (fun x => x + 1) (some (t.length + i))
      = some (t.length + i + 1) from rfl]
    congr 1
    simp only [List.length_cons]
    omega

theorem lastIdxOf_append_none (a : Char) : ∀ (l₁ l₂ : List Char),
    a ∉ l₂ → lastIdxOf a (l₁ ++ l₂) = lastIdxOf a l₁ := by
  intro l₁
  induction l₁ with
  | nil =>
    intro l₂ h
    rw [List.nil_append, lastIdxOf_none_of_not_mem a l₂ h]
    rfl
  | cons c t ih =>
    intro l₂ h
    rw [List.cons_append, lastIdxOf, ih l₂ h, lastIdxOf]

theorem lastIdxOf_concat_self (a : Char) : ∀ l : List Char,
    lastIdxOf a (l ++ (a :: [])) = some l.length := by
  intro l
  induction l with
  | nil => rw [List.nil_append, lastIdxOf, lastIdxOf, if_pos rfl]; rfl
  | cons c t ih =>
    rw [List.cons_append, lastIdxOf, ih, List.length_cons]

theorem jsonMatch_none_of_no_pair (s : List Char)
    (h : ∀ i j : Nat, i < j → s.get? i = some '[' → s.get? j = some ']' → False) :
    jsonMatch s = none := by
  rw [jsonMatch]
  match hf : firstIdxOf '[' s with
  | none => rfl
  | some i =>
    match hl : lastIdxOf ']' s with
    | none => rfl
    | some j =>
      simp only []
      rw [if_neg]
      intro hij
      exact h i j hij (firstIdxOf_get '[' s i hf) (lastIdxOf_get ']' s j hl)

/-- Claim C6 as amended: for every raw output with no bracket pair
(no opening bracket occurring before some later closing bracket),
extraction never returns a spec list: the whole text is parsed
instead, and a JSON parse can only return an array when the text has
such a bracket pair, so extraction either fails with a parse error
or yields a non array value. -/
theorem c6_no_bracket_pair (s : List Char)
    (h : ∀ i j : Nat, i < j → s.get? i = some '[' → s.get? j = some ']' → False) :
    ∀ es : List Json, extract s ≠ Except.ok (Json.arr es) := by
  intro es hext
  rw [extract, jsonMatch_none_of_no_pair s h] at hext
  rw [Option.getD_none] at hext
  obtain ⟨i, j, hij, hi, hj⟩ := parseJson_arr_brackets s es hext
  exact h i j hij hi hj

/-- Claim C6, refuted as stated: the output 5 contains no bracket
pair, yet extraction does not fail: JSON.parse of the whole text
succeeds and returns the number 5 (the pipeline then fails later at
the mapping step, with a type error rather than a parse error). -/
theorem c6_counterexample :
    firstIdxOf '[' (("5").toList) = none ∧
    extract (("5").toList) = Except.ok (Json.num ('5' :: [])) :=
  ⟨rfl, rfl⟩

/-- Witness for the amended claim C6 at a concrete bracket free
output. -/
theorem c6_witness : extract (("hello").toList) ≠ Except.ok (Json.arr []) :=
  c6_no_bracket_pair (("hello").toList)
    (fun _ _ _ hi _ => absurd (List.get?_mem hi) (by decide)) []

/-! Claim C7: extraction of a bracketed array surrounded by prose. -/

theorem jsonMatch_sandwich (pre mid post : List Char)
    (h1 : '[' ∉ pre) (h2 : ']' ∉ post) :
    jsonMatch (pre ++ ('[' :: (mid ++ (']' :: []))) ++ post)
      = some ('[' :: (mid ++ (']' :: []))) := by
  have hf : firstIdxOf '[' (pre ++ ('[' :: (mid ++ (']' :: []))) ++ post)
      = some (pre.length + 0) := by
    rw [List.append_assoc]
    exact firstIdxOf_append '[' pre _ 0 h1 (firstIdxOf_cons_self '[' _)
  have hshape : pre ++ ('[' :: (mid ++ (']' :: []))) = (pre ++ ('[' :: mid)) ++ (']' :: []) := by
    simp
  have hl : lastIdxOf ']' (pre ++ ('[' :: (mid ++ (']' :: []))) ++ post)
      = some (pre.length + (mid.length + 1)) := by
    rw [lastIdxOf_append_none ']' _ post h2, hshape, lastIdxOf_concat_self]
    congr 1
    simp only [List.length_append, List.length_cons]
  rw [jsonMatch, hf, hl]
  simp only []
  rw [if_pos (by omega)]
  congr 1
  simp only [Nat.add_zero]
  rw [List.append_assoc, drop_len_append]
  rw [show pre.length + (mid.length + 1) - pre.length + 1
    = ('[' :: (mid ++ (']' :: []))).length by
      simp only [List.length_append, List.length_cons, List.length_nil]
      omega]
  exact take_len_append _ _

/-- Claim C7 as amended: when the prose before the bracketed array
holds no opening bracket and the prose after it holds no closing
bracket, the greedy match isolates exactly the array text and
extraction returns exactly the parsed elements of that array,
unchanged. When the surrounding prose itself holds such brackets the
greedy match spans too much and extraction fails instead. -/
theorem c7_extract_array (pre mid post : List Char) (es : List Json)
    (h1 : '[' ∉ pre) (h2 : ']' ∉ post)
    (hp : parseJson ('[' :: (mid ++ (']' :: []))) = Except.ok (Json.arr es)) :
    extract (pre ++ ('[' :: (mid ++ (']' :: []))) ++ post)
      = Except.ok (Json.arr es) := by
  rw [extract, jsonMatch_sandwich pre mid post h1 h2]
  exact hp

/-- Claim C7, refuted as stated: the output has exactly one well
formed bracketed array (the final five characters), but the prose
before it holds a stray opening bracket, so the greedy match spans
from that bracket and fails to parse; extraction errors instead of
returning the array elements. -/
theorem c7_counterexample :
    parseJson (("[\"a\"]").toList) = Except.ok (Json.arr [Json.str ('a' :: [])]) ∧
    extract (("see [ note: [\"a\"]").toList)
      = Except.error (("Unexpected end of JSON input").toList) :=
  ⟨rfl, rfl⟩

/-- Witness for the amended claim C7 at a concrete output with clean
surrounding prose. -/
theorem c7_witness :
    extract ((("Sure! ").toList) ++ ('[' :: ((("\"a\"").toList) ++ (']' :: [])))
        ++ ((" ok").toList))
      = Except.ok (Json.arr [Json.str ('a' :: [])]) :=
  c7_extract_array (("Sure! ").toList) (("\"a\"").toList) ((" ok").toList)
    [Json.str ('a' :: [])] (by decide) (by decide) rfl

end AIChannelCreator
